import Mathlib

/-!
Shallow embedding of `heredity.py`: exact Bayesian-network inference over a
population of persons, each with a gene-count variable in {0,1,2} and a trait
variable, inferred by brute-force enumeration of joint assignments.

Python floats are modelled as exact rationals (`ℚ`); Python sets of names as
lists of names with membership tests (the enumeration produces each subset as
one canonical sublist of the duplicate-free name list, mirroring `powerset`
over a `set`); the `probabilities` dict as an association list from names to a
record of the five marginal buckets.  Person identities are an arbitrary type
with decidable equality (Python uses strings; nothing depends on that).
-/

namespace Heredity

/-- A row of the population table: `name, mother, father, trait`, with
`mother`/`father` optional references and `trait` a tri-state observation. -/
structure Person (α : Type*) where
  name : α
  mother : Option α
  father : Option α
  trait : Option Bool
deriving DecidableEq, Repr

variable {α : Type*} [DecidableEq α]

/-- `PROBS["gene"]`: the unconditional gene-count prior.  The Python dict has
keys 2, 1, 0 only; other arguments (never used) map to the junk value 0. -/
def PROBS_gene : ℕ → ℚ
  | 0 => 96/100
  | 1 => 3/100
  | 2 => 1/100
  | _ => 0

/-- `PROBS["trait"]` as the partial lookup the Python dict is: defined exactly
on the keys 2, 1, 0, `none` (a `KeyError`) elsewhere. -/
def PROBS_traitLookup : ℕ → Option (Bool → ℚ)
  | 0 => some fun b => if b then 1/100 else 99/100
  | 1 => some fun b => if b then 56/100 else 44/100
  | 2 => some fun b => if b then 65/100 else 35/100
  | _ => none

/-- Total version of the trait CPT used in arithmetic (the missing-key case,
proved unreachable in claim C9, maps to the junk row `fun _ => 0`). -/
def PROBS_trait (g : ℕ) (b : Bool) : ℚ :=
  ((PROBS_traitLookup g).getD fun _ => 0) b

/-- `PROBS["mutation"]`. -/
def PROBS_mutation : ℚ := 1/100

/-- `parent_prob(num_genes)`: probability that a parent with `num_genes`
copies passes the gene to the child, mutation included. -/
def parent_prob (num_genes : ℕ) : ℚ :=
  let pass_gene : ℚ := (num_genes : ℚ) / 2
  pass_gene * (1 - PROBS_mutation) + (1 - pass_gene) * PROBS_mutation

/-- `1 if person in one_gene else 2 if person in two_genes else 0`:
the gene count a joint assignment gives to the name `x`. -/
def geneCount (one two : List α) (x : α) : ℕ :=
  if x ∈ one then 1 else if x ∈ two then 2 else 0

/-- The same membership chain applied to an optional name.  In Python the
field may be `None`, and `None in one_gene` is `False` for a set of names, so
a missing name falls through to gene count 0. -/
def optGeneCount (one two : List α) : Option α → ℕ
  | none => 0
  | some x => geneCount one two x

/-- The `if quant_genes == 0 / 1 / 2 / else` chain of `joint_probability`
computing the child's gene-count probability from the two transmission
probabilities; the trailing `else` arm is the source's `p = 0` fall-through. -/
def childGeneProb (pf pm : ℚ) (g : ℕ) : ℚ :=
  if g = 0 then (1 - pf) * (1 - pm)
  else if g = 1 then (1 - pf) * pm + pf * (1 - pm)
  else if g = 2 then pf * pm
  else 0

/-- One iteration of the `for person in people` loop of `joint_probability`:
the factor this person contributes to the running product. -/
def personFactor (one two ht : List α) (q : Person α) : ℚ :=
  let quant := geneCount one two q.name
  let traitS := decide (q.name ∈ ht)
  match q.mother with
  | none => PROBS_gene quant * PROBS_trait quant traitS
  | some _ =>
      let pm := parent_prob (optGeneCount one two q.mother)
      let pf := parent_prob (optGeneCount one two q.father)
      childGeneProb pf pm quant * PROBS_trait quant traitS

/-- `joint_probability(people, one_gene, two_genes, have_trait)`. -/
def joint_probability (people : List (Person α)) (one two ht : List α) : ℚ :=
  people.foldl (fun prob q => prob * personFactor one two ht q) 1

/-- The five marginal buckets one person owns in the `probabilities` dict. -/
structure Dists where
  g0 : ℚ
  g1 : ℚ
  g2 : ℚ
  tT : ℚ
  tF : ℚ
deriving DecidableEq, Repr

/-- `probabilities[person]["gene"][quant_genes] += p` (the out-of-range arm
is unreachable: `geneCount` only returns 0, 1 or 2). -/
def addGene (d : Dists) (g : ℕ) (p : ℚ) : Dists :=
  if g = 0 then { d with g0 := d.g0 + p }
  else if g = 1 then { d with g1 := d.g1 + p }
  else if g = 2 then { d with g2 := d.g2 + p }
  else d

/-- `probabilities[person]["trait"][trait_status] += p`. -/
def addTrait (d : Dists) (b : Bool) (p : ℚ) : Dists :=
  if b then { d with tT := d.tT + p } else { d with tF := d.tF + p }

/-- The body of `update`'s loop for one person's entry. -/
def updateEntry (one two ht : List α) (p : ℚ) (e : α × Dists) : α × Dists :=
  (e.1, addTrait (addGene e.2 (geneCount one two e.1) p) (decide (e.1 ∈ ht)) p)

/-- `update(probabilities, one_gene, two_genes, have_trait, p)`. -/
def update (probabilities : List (α × Dists)) (one two ht : List α) (p : ℚ) :
    List (α × Dists) :=
  probabilities.map (updateEntry one two ht p)

/-- Sum of one person's gene buckets. -/
def geneSum (d : Dists) : ℚ := d.g0 + d.g1 + d.g2

/-- Sum of one person's trait buckets. -/
def traitSum (d : Dists) : ℚ := d.tT + d.tF

/-- The per-person body of `normalize`: divide each bucket by its
distribution's total. -/
def normalizeDists (d : Dists) : Dists :=
  ⟨d.g0 / geneSum d, d.g1 / geneSum d, d.g2 / geneSum d,
   d.tT / traitSum d, d.tF / traitSum d⟩

/-- `normalize(probabilities)`. -/
def normalize (probabilities : List (α × Dists)) : List (α × Dists) :=
  probabilities.map fun e => (e.1, normalizeDists e.2)

/-- The names of the population (`names = set(people)`; Python dict keys are
unique, which embeds as a `Nodup` hypothesis where it matters). -/
def names (people : List (Person α)) : List α := people.map Person.name

/-- `powerset(s)`: all subsets, realised as all sublists (each subset of a
duplicate-free list appears as exactly one sublist). -/
def powerset (l : List α) : List (List α) := l.sublists

/-- The `fails_evidence` generator expression of `main`. -/
def failsEvidence (people : List (Person α)) (ht : List α) : Bool :=
  people.any fun q =>
    match q.trait with
    | none => false
    | some b => decide (q.name ∈ ht) != b

/-- One candidate joint assignment of the enumeration. -/
structure Assign (α : Type*) where
  one : List α
  two : List α
  ht : List α
deriving DecidableEq, Repr

/-- The triple-nested enumeration loop of `main`: evidence-consistent trait
subsets, then one-gene subsets, then two-gene subsets of the remaining
persons. -/
def assignments (people : List (Person α)) : List (Assign α) :=
  ((powerset (names people)).filter fun ht => !failsEvidence people ht).flatMap
    fun ht => (powerset (names people)).flatMap
      fun one => ((powerset ((names people).filter fun x => decide (x ∉ one))).map
        fun two => Assign.mk one two ht)

/-- The all-zero `probabilities` table `main` starts from. -/
def initTable (people : List (Person α)) : List (α × Dists) :=
  people.map fun q => (q.name, ⟨0, 0, 0, 0, 0⟩)

/-- Fold a list of `(assignment, joint probability)` updates into a table:
the accumulation loop of `main`, with the added mass a parameter. -/
def applyUpdates (tbl : List (α × Dists)) (L : List (Assign α × ℚ)) :
    List (α × Dists) :=
  L.foldl (fun t a => update t a.1.one a.1.two a.1.ht a.2) tbl

/-- The whole of `main` after loading: enumerate, score, accumulate,
normalize. -/
def runInference (people : List (Person α)) : List (α × Dists) :=
  normalize (applyUpdates (initTable people)
    ((assignments people).map fun a =>
      (a, joint_probability people a.one a.two a.ht)))

/-- The `load_data` docstring's requirement on parent references: mother and
father both absent or both present, and present references resolve among the
population's names. -/
def parentageOK (people : List (Person α)) : Prop :=
  ∀ q ∈ people, (q.mother = none ↔ q.father = none) ∧
    (q.mother.all fun m => decide (m ∈ names people)) = true ∧
    (q.father.all fun f => decide (f ∈ names people)) = true

instance (people : List (Person α)) : Decidable (parentageOK people) := by
  unfold parentageOK
  infer_instance

/-- One table entry's evolution under a list of accumulation steps: the
`update` loop touches each entry independently, so the whole fold is this
per-entry fold mapped over the table (`applyUpdates_eq_map`). -/
def entryFold (e : α × Dists) (L : List (Assign α × ℚ)) : α × Dists :=
  L.foldl (fun x a => updateEntry a.1.one a.1.two a.1.ht a.2 x) e

/-! ### Basic facts about the model -/

lemma geneCount_cases (one two : List α) (x : α) :
    geneCount one two x = 0 ∨ geneCount one two x = 1 ∨ geneCount one two x = 2 := by
  unfold geneCount
  split_ifs <;> simp

lemma optGeneCount_cases (one two : List α) (o : Option α) :
    optGeneCount one two o = 0 ∨ optGeneCount one two o = 1 ∨
      optGeneCount one two o = 2 := by
  cases o with
  | none => simp [optGeneCount]
  | some x => exact geneCount_cases one two x

lemma geneSum_normalizeDists (d : Dists) (hg : geneSum d ≠ 0) :
    geneSum (normalizeDists d) = 1 := by
  have : geneSum (normalizeDists d) = geneSum d / geneSum d := by
    simp [geneSum, normalizeDists, div_add_div_same]
  rw [this, div_self hg]

lemma traitSum_normalizeDists (d : Dists) (ht : traitSum d ≠ 0) :
    traitSum (normalizeDists d) = 1 := by
  have : traitSum (normalizeDists d) = traitSum d / traitSum d := by
    simp [traitSum, normalizeDists, div_add_div_same]
  rw [this, div_self ht]

lemma normalizeDists_idem (d : Dists) (hg : geneSum d ≠ 0) (ht : traitSum d ≠ 0) :
    normalizeDists (normalizeDists d) = normalizeDists d := by
  conv_lhs => rw [normalizeDists]
  rw [geneSum_normalizeDists d hg, traitSum_normalizeDists d ht]
  simp

lemma foldl_mul_eq_prod {β : Type*} (f : β → ℚ) (l : List β) (init : ℚ) :
    l.foldl (fun p q => p * f q) init = init * (l.map f).prod := by
  induction l generalizing init with
  | nil => simp
  | cons a l ih => simp [ih, mul_assoc]

lemma PROBS_gene_pos {g : ℕ} (h : g = 0 ∨ g = 1 ∨ g = 2) : 0 < PROBS_gene g := by
  rcases h with h | h | h <;> norm_num [h, PROBS_gene]

lemma PROBS_trait_pos {g : ℕ} (b : Bool) (h : g = 0 ∨ g = 1 ∨ g = 2) :
    0 < PROBS_trait g b := by
  rcases h with h | h | h <;> cases b <;>
    norm_num [h, PROBS_trait, PROBS_traitLookup]

lemma parent_prob_bounds {n : ℕ} (h : n = 0 ∨ n = 1 ∨ n = 2) :
    0 < parent_prob n ∧ parent_prob n < 1 := by
  rcases h with h | h | h <;>
    norm_num [h, parent_prob, PROBS_mutation]

lemma childGeneProb_pos {pf pm : ℚ} (hf0 : 0 < pf) (hf1 : pf < 1)
    (hm0 : 0 < pm) (hm1 : pm < 1) {g : ℕ} (h : g = 0 ∨ g = 1 ∨ g = 2) :
    0 < childGeneProb pf pm g := by
  have h1 : 0 < 1 - pf := by linarith
  have h2 : 0 < 1 - pm := by linarith
  rcases h with h | h | h <;> simp only [h, childGeneProb] <;> norm_num
  · exact mul_pos h1 h2
  · exact add_pos (mul_pos h1 hm0) (mul_pos hf0 h2)
  · exact mul_pos hf0 hm0

lemma personFactor_pos (one two ht : List α) (q : Person α) :
    0 < personFactor one two ht q := by
  have htr := PROBS_trait_pos (g := geneCount one two q.name)
    (decide (q.name ∈ ht)) (geneCount_cases one two q.name)
  unfold personFactor
  cases hm : q.mother with
  | none =>
      exact mul_pos (PROBS_gene_pos (geneCount_cases one two q.name)) htr
  | some m =>
      have hpm := parent_prob_bounds (optGeneCount_cases one two (some m))
      have hpf := parent_prob_bounds (optGeneCount_cases one two q.father)
      exact mul_pos
        (childGeneProb_pos hpf.1 hpf.2 hpm.1 hpm.2 (geneCount_cases one two q.name))
        htr

lemma joint_probability_pos (people : List (Person α)) (one two ht : List α) :
    0 < joint_probability people one two ht := by
  rw [joint_probability, foldl_mul_eq_prod, one_mul]
  refine List.prod_pos fun x hx => ?_
  obtain ⟨q, _, rfl⟩ := List.mem_map.1 hx
  exact personFactor_pos one two ht q

lemma not_failsEvidence_iff (people : List (Person α)) (ht : List α) :
    failsEvidence people ht = false ↔
      ∀ r ∈ people, ∀ b, r.trait = some b → decide (r.name ∈ ht) = b := by
  rw [failsEvidence, List.any_eq_false]
  constructor
  · intro h r hr b hb
    have := h r hr
    rw [hb] at this
    simpa using this
  · intro h r hr
    cases htr : r.trait with
    | none => simp [htr]
    | some b =>
        have := h r hr b htr
        simp [htr, this]

lemma mem_assignments_iff (people : List (Person α)) (a : Assign α) :
    a ∈ assignments people ↔
      a.ht ∈ powerset (names people) ∧ failsEvidence people a.ht = false ∧
      a.one ∈ powerset (names people) ∧
      a.two ∈ powerset ((names people).filter fun x => decide (x ∉ a.one)) := by
  constructor
  · intro ha
    obtain ⟨ht, hht, hrest⟩ := List.mem_flatMap.1 ha
    obtain ⟨one, hone, htwo'⟩ := List.mem_flatMap.1 hrest
    obtain ⟨two, htwo, heq⟩ := List.mem_map.1 htwo'
    obtain ⟨hht1, hht2⟩ := List.mem_filter.1 hht
    cases heq
    exact ⟨hht1, by simpa using hht2, hone, htwo⟩
  · rintro ⟨h1, h2, h3, h4⟩
    refine List.mem_flatMap.2 ⟨a.ht, List.mem_filter.2 ⟨h1, by simp [h2]⟩,
      List.mem_flatMap.2 ⟨a.one, h3, List.mem_map.2 ⟨a.two, h4, ?_⟩⟩⟩
    cases a
    rfl

/-! ### Facts about the accumulation fold -/

lemma applyUpdates_eq_map (L : List (Assign α × ℚ)) (tbl : List (α × Dists)) :
    applyUpdates tbl L = tbl.map fun e => entryFold e L := by
  induction L generalizing tbl with
  | nil => simp [applyUpdates, entryFold]
  | cons a L ih =>
      have h : applyUpdates tbl (a :: L) =
          applyUpdates (update tbl a.1.one a.1.two a.1.ht a.2) L := rfl
      rw [h, ih, update, List.map_map]
      rfl

lemma entryFold_fst (e : α × Dists) (L : List (Assign α × ℚ)) :
    (entryFold e L).1 = e.1 := by
  induction L generalizing e with
  | nil => rfl
  | cons a L ih =>
      have h := ih (updateEntry a.1.one a.1.two a.1.ht a.2 e)
      exact h

lemma tT_addGene (d : Dists) (g : ℕ) (p : ℚ) : (addGene d g p).tT = d.tT := by
  unfold addGene
  split_ifs <;> rfl

lemma tF_addGene (d : Dists) (g : ℕ) (p : ℚ) : (addGene d g p).tF = d.tF := by
  unfold addGene
  split_ifs <;> rfl

lemma geneSum_addGene (d : Dists) {g : ℕ} (p : ℚ) (h : g = 0 ∨ g = 1 ∨ g = 2) :
    geneSum (addGene d g p) = geneSum d + p := by
  rcases h with h | h | h <;> simp [h, addGene, geneSum] <;> ring

lemma geneSum_addTrait (d : Dists) (b : Bool) (p : ℚ) :
    geneSum (addTrait d b p) = geneSum d := by
  cases b <;> rfl

lemma traitSum_addGene (d : Dists) (g : ℕ) (p : ℚ) :
    traitSum (addTrait (addGene d g p) (b := true) 0) = traitSum (addGene d g p) := by
  simp [addTrait, traitSum]

lemma traitSum_addTrait (d : Dists) (b : Bool) (p : ℚ) :
    traitSum (addTrait d b p) = traitSum d + p := by
  cases b <;> simp [addTrait, traitSum] <;> ring

lemma geneSum_entryFold (e : α × Dists) (L : List (Assign α × ℚ)) :
    geneSum (entryFold e L).2 = geneSum e.2 + (L.map fun a => a.2).sum := by
  induction L generalizing e with
  | nil => simp [entryFold]
  | cons a L ih =>
      have h := ih (updateEntry a.1.one a.1.two a.1.ht a.2 e)
      have hstep : geneSum (updateEntry a.1.one a.1.two a.1.ht a.2 e).2 =
          geneSum e.2 + a.2 := by
        rw [updateEntry, geneSum_addTrait,
          geneSum_addGene e.2 a.2 (geneCount_cases a.1.one a.1.two e.1)]
      calc geneSum (entryFold e (a :: L)).2
          = geneSum (updateEntry a.1.one a.1.two a.1.ht a.2 e).2 +
              (L.map fun a => a.2).sum := h
        _ = geneSum e.2 + ((a :: L).map fun a => a.2).sum := by
              rw [hstep]; simp; ring

lemma traitSum_entryFold (e : α × Dists) (L : List (Assign α × ℚ)) :
    traitSum (entryFold e L).2 = traitSum e.2 + (L.map fun a => a.2).sum := by
  induction L generalizing e with
  | nil => simp [entryFold]
  | cons a L ih =>
      have h := ih (updateEntry a.1.one a.1.two a.1.ht a.2 e)
      have hstep : traitSum (updateEntry a.1.one a.1.two a.1.ht a.2 e).2 =
          traitSum e.2 + a.2 := by
        rw [updateEntry, traitSum_addTrait]
        congr 1
        simp [addGene, traitSum]
        split_ifs <;> rfl
      calc traitSum (entryFold e (a :: L)).2
          = traitSum (updateEntry a.1.one a.1.two a.1.ht a.2 e).2 +
              (L.map fun a => a.2).sum := h
        _ = traitSum e.2 + ((a :: L).map fun a => a.2).sum := by
              rw [hstep]; simp; ring

lemma trait_entryFold_of_mem (x : α) (d : Dists) (L : List (Assign α × ℚ))
    (h : ∀ a ∈ L, x ∈ a.1.ht) :
    (entryFold (x, d) L).2.tT = d.tT + (L.map fun a => a.2).sum ∧
    (entryFold (x, d) L).2.tF = d.tF := by
  induction L generalizing d with
  | nil => simp [entryFold]
  | cons a L ih =>
      have hx : decide (x ∈ a.1.ht) = true := by
        simpa using h a (List.mem_cons_self a L)
      have hstep : updateEntry a.1.one a.1.two a.1.ht a.2 (x, d) =
          (x, addTrait (addGene d (geneCount a.1.one a.1.two x) a.2) true a.2) := by
        rw [updateEntry, hx]
      have h' := ih (addTrait (addGene d (geneCount a.1.one a.1.two x) a.2) true a.2)
        (fun a ha => h a (List.mem_cons_of_mem _ ha))
      have heq : entryFold (x, d) (a :: L) =
          entryFold (x, addTrait (addGene d (geneCount a.1.one a.1.two x) a.2) true a.2) L := by
        show entryFold (updateEntry a.1.one a.1.two a.1.ht a.2 (x, d)) L = _
        rw [hstep]
      rw [heq]
      refine ⟨?_, ?_⟩
      · rw [h'.1]
        simp [addTrait, tT_addGene]
        ring
      · rw [h'.2]
        simp [addTrait, tF_addGene]

lemma trait_entryFold_of_not_mem (x : α) (d : Dists) (L : List (Assign α × ℚ))
    (h : ∀ a ∈ L, x ∉ a.1.ht) :
    (entryFold (x, d) L).2.tF = d.tF + (L.map fun a => a.2).sum ∧
    (entryFold (x, d) L).2.tT = d.tT := by
  induction L generalizing d with
  | nil => simp [entryFold]
  | cons a L ih =>
      have hx : decide (x ∈ a.1.ht) = false := by
        simpa using h a (List.mem_cons_self a L)
      have hstep : updateEntry a.1.one a.1.two a.1.ht a.2 (x, d) =
          (x, addTrait (addGene d (geneCount a.1.one a.1.two x) a.2) false a.2) := by
        rw [updateEntry, hx]
      have h' := ih (addTrait (addGene d (geneCount a.1.one a.1.two x) a.2) false a.2)
        (fun a ha => h a (List.mem_cons_of_mem _ ha))
      have heq : entryFold (x, d) (a :: L) =
          entryFold (x, addTrait (addGene d (geneCount a.1.one a.1.two x) a.2) false a.2) L := by
        show entryFold (updateEntry a.1.one a.1.two a.1.ht a.2 (x, d)) L = _
        rw [hstep]
      rw [heq]
      refine ⟨?_, ?_⟩
      · rw [h'.1]
        simp [addTrait, tF_addGene]
        ring
      · rw [h'.2]
        simp [addTrait, tT_addGene]

omit [DecidableEq α] in
lemma name_inj (people : List (Person α)) (hnd : (names people).Nodup)
    {q r : Person α} (hq : q ∈ people) (hr : r ∈ people) (h : q.name = r.name) :
    q = r :=
  List.inj_on_of_nodup_map hnd hq hr h

lemma assignments_ne_nil (people : List (Person α)) (hnd : (names people).Nodup) :
    assignments people ≠ [] := by
  have hsub : List.Sublist
      ((people.filter fun r => r.trait == some true).map Person.name)
      (names people) := (List.filter_sublist people).map Person.name
  have hev : failsEvidence people
      ((people.filter fun r => r.trait == some true).map Person.name) = false := by
    rw [not_failsEvidence_iff]
    intro r hr b hb
    cases b with
    | false =>
        simp only [decide_eq_false_iff_not]
        intro hmem
        obtain ⟨r', hr', hname⟩ := List.mem_map.1 hmem
        obtain ⟨hr'mem, htrait'⟩ := List.mem_filter.1 hr'
        have heqr : r' = r := name_inj people hnd hr'mem hr hname
        rw [heqr, hb] at htrait'
        simp at htrait'
    | true =>
        simp only [decide_eq_true_eq]
        exact List.mem_map.2 ⟨r, List.mem_filter.2 ⟨hr, by simp [hb]⟩, rfl⟩
  have hmem : (⟨[], [],
      (people.filter fun r => r.trait == some true).map Person.name⟩ : Assign α) ∈
      assignments people := by
    rw [mem_assignments_iff]
    exact ⟨by simpa [powerset, List.mem_sublists] using hsub, hev,
      by simp [powerset], by simp [powerset]⟩
  exact List.ne_nil_of_mem hmem

/-! ### Claim theorems: the probability model and normalization -/

/-- C4: `parent_prob` computes `naive*(1-mu) + (1-naive)*mu` with
`naive = parentGeneCount/2` and `mu = 0.01`, so it takes the exact values
0.01, 0.5, 0.99 at gene counts 0, 1, 2; and inside `joint_probability` the
same function is applied to the mother's and the father's gene count
independently. -/
theorem c4_parent_prob_spec :
    (∀ g : ℕ, parent_prob g =
      ((g : ℚ) / 2) * (1 - PROBS_mutation) + (1 - (g : ℚ) / 2) * PROBS_mutation) ∧
    PROBS_mutation = 1/100 ∧
    parent_prob 0 = 1/100 ∧ parent_prob 1 = 1/2 ∧ parent_prob 2 = 99/100 ∧
    (∀ (one two ht : List String) (q : Person String), q.mother ≠ none →
      personFactor one two ht q =
        childGeneProb (parent_prob (optGeneCount one two q.father))
          (parent_prob (optGeneCount one two q.mother))
          (geneCount one two q.name) *
          PROBS_trait (geneCount one two q.name) (decide (q.name ∈ ht))) := by
  refine ⟨fun g => rfl, rfl, by norm_num [parent_prob, PROBS_mutation],
    by norm_num [parent_prob, PROBS_mutation],
    by norm_num [parent_prob, PROBS_mutation], ?_⟩
  intro one two ht q hm
  cases h : q.mother with
  | none => exact absurd h hm
  | some m => simp [personFactor, h]

/-- C4 witness: the structural conjunct instantiated at a person whose mother
is present. -/
theorem c4_parent_prob_spec_witness :
    personFactor ([] : List String) [] [] ⟨"c", some "m", some "f", none⟩ =
      childGeneProb (parent_prob 0) (parent_prob 0) 0 * PROBS_trait 0 false := by
  have h := c4_parent_prob_spec.2.2.2.2.2 [] [] []
    ⟨"c", some "m", some "f", none⟩ (by simp)
  simpa using h

/-- C9: the gene count `joint_probability` computes for any name is always
0, 1 or 2, so the trait-CPT lookup always succeeds and the `p = 0`
fall-through arm of the child-gene-probability chain is unreachable: the
value always comes from one of the three stated formulas. -/
theorem c9_geneCount_range (one two : List α) (x : α) (pf pm : ℚ) :
    (geneCount one two x = 0 ∨ geneCount one two x = 1 ∨ geneCount one two x = 2) ∧
    (PROBS_traitLookup (geneCount one two x)).isSome = true ∧
    childGeneProb pf pm (geneCount one two x) =
      (if geneCount one two x = 0 then (1 - pf) * (1 - pm)
       else if geneCount one two x = 1 then (1 - pf) * pm + pf * (1 - pm)
       else pf * pm) := by
  refine ⟨geneCount_cases one two x, ?_, ?_⟩
  · rcases geneCount_cases one two x with h | h | h <;>
      simp [h, PROBS_traitLookup]
  · rcases geneCount_cases one two x with h | h | h <;>
      simp [h, childGeneProb]

omit [DecidableEq α] in
/-- C2: when every pre-normalization distribution has a strictly positive
sum, `normalize` makes every person's gene distribution and trait
distribution sum to 1, and each bucket is exactly the unnormalized bucket
divided by that distribution's pre-normalization sum. -/
theorem c2_normalize_sums (tbl : List (α × Dists))
    (h : ∀ e ∈ tbl, 0 < geneSum e.2 ∧ 0 < traitSum e.2) :
    (∀ e ∈ normalize tbl, geneSum e.2 = 1 ∧ traitSum e.2 = 1) ∧
    normalize tbl = tbl.map fun e => (e.1,
      ⟨e.2.g0 / geneSum e.2, e.2.g1 / geneSum e.2, e.2.g2 / geneSum e.2,
       e.2.tT / traitSum e.2, e.2.tF / traitSum e.2⟩) := by
  refine ⟨?_, rfl⟩
  intro e he
  obtain ⟨e0, he0, rfl⟩ := List.mem_map.1 he
  obtain ⟨h1, h2⟩ := h e0 he0
  exact ⟨geneSum_normalizeDists e0.2 h1.ne', traitSum_normalizeDists e0.2 h2.ne'⟩

/-- C2 witness: a concrete one-entry table with positive sums. -/
theorem c2_normalize_sums_witness :
    (∀ e ∈ [((0 : ℕ), (⟨1, 1, 2, 3, 1⟩ : Dists))],
      0 < geneSum e.2 ∧ 0 < traitSum e.2) ∧
    ((∀ e ∈ normalize [((0 : ℕ), (⟨1, 1, 2, 3, 1⟩ : Dists))],
      geneSum e.2 = 1 ∧ traitSum e.2 = 1) ∧
     normalize [((0 : ℕ), (⟨1, 1, 2, 3, 1⟩ : Dists))] =
       [((0 : ℕ), (⟨1, 1, 2, 3, 1⟩ : Dists))].map fun e => (e.1,
        ⟨e.2.g0 / geneSum e.2, e.2.g1 / geneSum e.2, e.2.g2 / geneSum e.2,
         e.2.tT / traitSum e.2, e.2.tF / traitSum e.2⟩)) :=
  ⟨by norm_num [geneSum, traitSum], c2_normalize_sums _ (by norm_num [geneSum, traitSum])⟩

omit [DecidableEq α] in
/-- C8: normalization is idempotent on tables with strictly positive
per-distribution sums. -/
theorem c8_normalize_idem (tbl : List (α × Dists))
    (h : ∀ e ∈ tbl, 0 < geneSum e.2 ∧ 0 < traitSum e.2) :
    normalize (normalize tbl) = normalize tbl := by
  unfold normalize
  rw [List.map_map]
  refine List.map_congr_left fun e he => ?_
  obtain ⟨h1, h2⟩ := h e he
  simp [Function.comp, normalizeDists_idem e.2 h1.ne' h2.ne']

/-- C8 witness: idempotence at a concrete table. -/
theorem c8_normalize_idem_witness :
    normalize (normalize [((0 : ℕ), (⟨1, 1, 2, 3, 1⟩ : Dists))]) =
      normalize [((0 : ℕ), (⟨1, 1, 2, 3, 1⟩ : Dists))] :=
  c8_normalize_idem _ (by norm_num [geneSum, traitSum])

/-! ### C1: the joint probability is the spec's per-person product -/

/-- The per-person factor exactly as claim C1 words it (for comparison with
`personFactor`, which is translated from the code): a person with no recorded
parents contributes the gene prior, a person with both parents recorded
contributes the transmission combination of the parents' gene counts in the
same assignment; the partial-parentage case is outside the claim's invariant
and is given the junk value 0 here. -/
def specPersonProb (one two ht : List α) (q : Person α) : ℚ :=
  let g := geneCount one two q.name
  let geneP :=
    match q.mother, q.father with
    | none, none => PROBS_gene g
    | some m, some f =>
        let pm := parent_prob (geneCount one two m)
        let pf := parent_prob (geneCount one two f)
        if g = 0 then (1 - pf) * (1 - pm)
        else if g = 1 then (1 - pf) * pm + pf * (1 - pm)
        else pf * pm
    | _, _ => 0
  geneP * PROBS_trait g (decide (q.name ∈ ht))

/-- C1: on every population satisfying the parentage invariant,
`joint_probability` returns exactly the product, over all persons, of the
claims' per-person term: gene prior for founders, mutation-adjusted
transmission combination for children, times the trait probability given the
person's assigned gene count. -/
theorem c1_joint_probability_product (people : List (Person α)) (one two ht : List α)
    (h : parentageOK people) :
    joint_probability people one two ht =
      (people.map (specPersonProb one two ht)).prod := by
  rw [joint_probability, foldl_mul_eq_prod, one_mul]
  refine congrArg List.prod (List.map_congr_left fun q hq => ?_)
  obtain ⟨hiff, -, -⟩ := h q hq
  cases hm : q.mother with
  | none =>
      have hf : q.father = none := hiff.1 hm
      simp [personFactor, specPersonProb, hm, hf]
  | some m =>
      cases hf : q.father with
      | none =>
          have : q.mother = none := hiff.2 hf
          rw [this] at hm
          cases hm
      | some f =>
          rcases geneCount_cases one two q.name with hg | hg | hg <;>
            simp [personFactor, specPersonProb, hm, hf, childGeneProb,
              optGeneCount, hg]

/-- C1 witness: a mother, a father and one child (person 2 with parents 0
and 1), evaluated at the assignment where the child has one gene copy. -/
theorem c1_joint_probability_product_witness :
    parentageOK [(⟨0, none, none, none⟩ : Person ℕ), ⟨1, none, none, none⟩,
      ⟨2, some 0, some 1, none⟩] ∧
    joint_probability [(⟨0, none, none, none⟩ : Person ℕ), ⟨1, none, none, none⟩,
        ⟨2, some 0, some 1, none⟩] [2] [] [0] =
      ([(⟨0, none, none, none⟩ : Person ℕ), ⟨1, none, none, none⟩,
        ⟨2, some 0, some 1, none⟩].map (specPersonProb [2] [] [0])).prod :=
  ⟨by decide, c1_joint_probability_product _ _ _ _ (by decide)⟩

/-! ### C6: behaviour on malformed parentage -/

/-- C6 counterexample: the code does not fail fast on malformed parentage.
Person 0 has a father reference (`some 1`) that does not resolve anywhere and
no mother — partial parentage — yet `joint_probability` silently returns the
very value it returns for the fully parentless person, and the pipeline
produces normalized distributions for the malformed population. -/
theorem c6_counterexample :
    joint_probability [(⟨0, none, some 1, none⟩ : Person ℕ)] [] [] [] =
      joint_probability [(⟨0, none, none, none⟩ : Person ℕ)] [] [] [] ∧
    runInference [(⟨0, none, some 1, none⟩ : Person ℕ)] =
      [(0, ⟨96/100, 3/100, 1/100, 329/10000, 9671/10000⟩)] := by
  constructor
  · rfl
  · norm_num [runInference, applyUpdates, assignments, powerset, names,
      failsEvidence, joint_probability, personFactor, geneCount, optGeneCount,
      childGeneProb, PROBS_gene, PROBS_trait, PROBS_traitLookup, PROBS_mutation,
      parent_prob, update, updateEntry, addGene, addTrait, initTable,
      normalize, normalizeDists, geneSum, traitSum, List.sublists_cons]

/-- C6 amended: instead of failing, the evaluator treats a person whose
mother field is empty as having no parents at all (the father field is never
consulted), and a present parent reference that lies in neither gene subset —
in particular one that does not resolve in the population, since the
enumerated subsets only contain population names — as a parent with gene
count 0 (transmission probability `parent_prob 0`). -/
theorem c6_amended_no_failure (one two ht : List α) :
    (∀ q : Person α, q.mother = none →
      personFactor one two ht q =
        PROBS_gene (geneCount one two q.name) *
          PROBS_trait (geneCount one two q.name) (decide (q.name ∈ ht))) ∧
    (∀ (q : Person α) (m : α), q.mother = some m → q.father = none →
      personFactor one two ht q =
        childGeneProb (parent_prob 0) (parent_prob (geneCount one two m))
          (geneCount one two q.name) *
          PROBS_trait (geneCount one two q.name) (decide (q.name ∈ ht))) ∧
    (∀ (q : Person α) (m f : α), q.mother = some m → q.father = some f →
      f ∉ one → f ∉ two →
      personFactor one two ht q =
        childGeneProb (parent_prob 0) (parent_prob (geneCount one two m))
          (geneCount one two q.name) *
          PROBS_trait (geneCount one two q.name) (decide (q.name ∈ ht))) := by
  refine ⟨fun q hm => by simp [personFactor, hm], ?_, ?_⟩
  · intro q m hm hf
    simp [personFactor, hm, hf, optGeneCount]
  · intro q m f hm hf hf1 hf2
    simp [personFactor, hm, hf, optGeneCount, geneCount, hf1, hf2]

/-- C6 amended witness: the partial-parentage person evaluated concretely. -/
theorem c6_amended_no_failure_witness :
    personFactor ([] : List ℕ) [] [] ⟨0, none, some 1, none⟩ =
      PROBS_gene 0 * PROBS_trait 0 false := by
  have h := (c6_amended_no_failure ([] : List ℕ) [] []).1 ⟨0, none, some 1, none⟩ rfl
  simpa [geneCount] using h

/-! ### C10: equal accumulated mass across persons and distributions -/

/-- C10: starting from the all-zero table, any sequence of `update` calls
adds each step's mass to exactly one gene bucket and one trait bucket of
every person, so every person's gene-bucket sum and trait-bucket sum both
equal the total added mass — in particular the sums agree across persons and
across the two distributions of one person. -/
theorem c10_equal_mass (people : List (Person α)) (L : List (Assign α × ℚ)) :
    ∀ e ∈ applyUpdates (initTable people) L,
    ∀ e2 ∈ applyUpdates (initTable people) L,
      geneSum e.2 = (L.map fun a => a.2).sum ∧
      traitSum e.2 = (L.map fun a => a.2).sum ∧
      geneSum e.2 = geneSum e2.2 ∧ geneSum e.2 = traitSum e.2 := by
  have key : ∀ e ∈ applyUpdates (initTable people) L,
      geneSum e.2 = (L.map fun a => a.2).sum ∧
      traitSum e.2 = (L.map fun a => a.2).sum := by
    intro e he
    rw [applyUpdates_eq_map] at he
    obtain ⟨e0, he0, rfl⟩ := List.mem_map.1 he
    obtain ⟨q, hq, rfl⟩ := List.mem_map.1 he0
    rw [geneSum_entryFold, traitSum_entryFold]
    norm_num [geneSum, traitSum]
  intro e he e2 he2
  obtain ⟨h1, h2⟩ := key e he
  obtain ⟨h3, -⟩ := key e2 he2
  exact ⟨h1, h2, by rw [h1, h3], by rw [h1, h2]⟩

/-- C10 witness: a single-person table after one update of mass 5. -/
theorem c10_equal_mass_witness :
    geneSum (⟨5, 0, 0, 0, 5⟩ : Dists) =
      ([((⟨[], [], []⟩ : Assign ℕ), (5 : ℚ))].map fun a => a.2).sum ∧
    traitSum (⟨5, 0, 0, 0, 5⟩ : Dists) =
      ([((⟨[], [], []⟩ : Assign ℕ), (5 : ℚ))].map fun a => a.2).sum ∧
    geneSum (⟨5, 0, 0, 0, 5⟩ : Dists) = geneSum (⟨5, 0, 0, 0, 5⟩ : Dists) ∧
    geneSum (⟨5, 0, 0, 0, 5⟩ : Dists) = traitSum (⟨5, 0, 0, 0, 5⟩ : Dists) := by
  have hmem : ((0 : ℕ), (⟨5, 0, 0, 0, 5⟩ : Dists)) ∈
      applyUpdates (initTable [(⟨0, none, none, none⟩ : Person ℕ)])
        [((⟨[], [], []⟩ : Assign ℕ), (5 : ℚ))] := by
    norm_num [applyUpdates, initTable, update, updateEntry, addGene, addTrait,
      geneCount]
  exact c10_equal_mass [(⟨0, none, none, none⟩ : Person ℕ)]
    [((⟨[], [], []⟩ : Assign ℕ), (5 : ℚ))] _ hmem _ hmem

/-! ### C3: observed traits get all the normalized mass -/

/-- C3: for any population with distinct names and any person whose trait is
observed, the final normalized trait distribution of that person puts 1 on
the observed value and 0 on its complement: the enumeration skips every trait
subset disagreeing with an observation, so the complement bucket accumulates
nothing while the observed bucket accumulates the (strictly positive) total
mass. -/
theorem c3_observed_trait (people : List (Person α))
    (hnd : (names people).Nodup) (q : Person α) (hq : q ∈ people)
    (v : Bool) (hv : q.trait = some v) :
    ∀ e ∈ runInference people, e.1 = q.name →
      (v = true → e.2.tT = 1 ∧ e.2.tF = 0) ∧
      (v = false → e.2.tT = 0 ∧ e.2.tF = 1) := by
  intro e he hname
  rw [runInference, applyUpdates_eq_map, normalize] at he
  obtain ⟨x, hx, rfl⟩ := List.mem_map.1 he
  obtain ⟨y, hy, rfl⟩ := List.mem_map.1 hx
  rw [initTable] at hy
  obtain ⟨r, hr, rfl⟩ := List.mem_map.1 hy
  have hrq : r = q := by
    refine name_inj people hnd hr hq ?_
    simpa [entryFold_fst] using hname
  subst hrq
  set L := (assignments people).map fun a =>
    (a, joint_probability people a.one a.two a.ht) with hL
  set S := (L.map fun a => a.2).sum with hS
  have hSpos : 0 < S := by
    rw [hS, hL, List.map_map]
    refine List.sum_pos _ (fun x hx => ?_) ?_
    · obtain ⟨a, -, rfl⟩ := List.mem_map.1 hx
      exact joint_probability_pos people a.one a.two a.ht
    · simp only [ne_eq, List.map_eq_nil_iff]
      exact assignments_ne_nil people hnd
  have hmem : ∀ a ∈ L, decide (r.name ∈ a.1.ht) = v := by
    intro a ha
    rw [hL] at ha
    obtain ⟨a0, ha0, rfl⟩ := List.mem_map.1 ha
    have h1 := (mem_assignments_iff people a0).1 ha0
    exact (not_failsEvidence_iff people a0.ht).1 h1.2.1 r hr v hv
  cases v with
  | true =>
      have hall : ∀ a ∈ L, r.name ∈ a.1.ht := fun a ha => by
        simpa using hmem a ha
      obtain ⟨h1, h2⟩ := trait_entryFold_of_mem r.name ⟨0, 0, 0, 0, 0⟩ L hall
      refine ⟨fun _ => ?_, fun hvf => Bool.noConfusion hvf⟩
      have htsum : traitSum (entryFold (r.name, ⟨0, 0, 0, 0, 0⟩) L).2 = S := by
        rw [traitSum, h1, h2]
        simp
      constructor
      · show (entryFold (r.name, ⟨0, 0, 0, 0, 0⟩) L).2.tT /
            traitSum (entryFold (r.name, ⟨0, 0, 0, 0, 0⟩) L).2 = 1
        rw [htsum, h1]
        simp only [zero_add]
        exact div_self hSpos.ne'
      · show (entryFold (r.name, ⟨0, 0, 0, 0, 0⟩) L).2.tF /
            traitSum (entryFold (r.name, ⟨0, 0, 0, 0, 0⟩) L).2 = 0
        rw [h2]
        simp
  | false =>
      have hall : ∀ a ∈ L, r.name ∉ a.1.ht := fun a ha => by
        simpa using hmem a ha
      obtain ⟨h1, h2⟩ := trait_entryFold_of_not_mem r.name ⟨0, 0, 0, 0, 0⟩ L hall
      refine ⟨fun hvt => Bool.noConfusion hvt, fun _ => ?_⟩
      have htsum : traitSum (entryFold (r.name, ⟨0, 0, 0, 0, 0⟩) L).2 = S := by
        rw [traitSum, h1, h2]
        simp
      constructor
      · show (entryFold (r.name, ⟨0, 0, 0, 0, 0⟩) L).2.tT /
            traitSum (entryFold (r.name, ⟨0, 0, 0, 0, 0⟩) L).2 = 0
        rw [h2]
        simp
      · show (entryFold (r.name, ⟨0, 0, 0, 0, 0⟩) L).2.tF /
            traitSum (entryFold (r.name, ⟨0, 0, 0, 0, 0⟩) L).2 = 1
        rw [htsum, h1]
        simp only [zero_add]
        exact div_self hSpos.ne'

/-- C3 witness: one person with observed trait `true`; the run puts all
normalized trait mass on `true`. -/
theorem c3_observed_trait_witness :
    ((names [(⟨0, none, none, some true⟩ : Person ℕ)]).Nodup ∧
      (⟨0, none, none, some true⟩ : Person ℕ) ∈
        [(⟨0, none, none, some true⟩ : Person ℕ)] ∧
      (⟨0, none, none, some true⟩ : Person ℕ).trait = some true ∧
      ((0 : ℕ), (⟨96/329, 168/329, 65/329, 1, 0⟩ : Dists)) ∈
        runInference [(⟨0, none, none, some true⟩ : Person ℕ)]) ∧
    ((true = true →
        (⟨96/329, 168/329, 65/329, 1, 0⟩ : Dists).tT = 1 ∧
        (⟨96/329, 168/329, 65/329, 1, 0⟩ : Dists).tF = 0) ∧
     (true = false →
        (⟨96/329, 168/329, 65/329, 1, 0⟩ : Dists).tT = 0 ∧
        (⟨96/329, 168/329, 65/329, 1, 0⟩ : Dists).tF = 1)) := by
  have hrun : ((0 : ℕ), (⟨96/329, 168/329, 65/329, 1, 0⟩ : Dists)) ∈
      runInference [(⟨0, none, none, some true⟩ : Person ℕ)] := by
    norm_num [runInference, applyUpdates, assignments, powerset, names,
      failsEvidence, joint_probability, personFactor, geneCount, optGeneCount,
      childGeneProb, PROBS_gene, PROBS_trait, PROBS_traitLookup, PROBS_mutation,
      parent_prob, update, updateEntry, addGene, addTrait, initTable,
      normalize, normalizeDists, geneSum, traitSum, List.sublists_cons]
  exact ⟨⟨by decide, by decide, rfl, hrun⟩,
    c3_observed_trait [(⟨0, none, none, some true⟩ : Person ℕ)] (by decide)
      (⟨0, none, none, some true⟩ : Person ℕ) (by decide) true rfl
      ((0 : ℕ), (⟨96/329, 168/329, 65/329, 1, 0⟩ : Dists)) hrun rfl⟩

/-! ### C5: the enumeration visits each consistent assignment exactly once -/

lemma mem_inner_ht {people : List (Person α)} {ht : List α} {x : Assign α}
    (hx : x ∈ (powerset (names people)).flatMap fun one =>
      ((powerset ((names people).filter fun y => decide (y ∉ one))).map
        fun two => Assign.mk one two ht)) : x.ht = ht := by
  obtain ⟨one, -, hx2⟩ := List.mem_flatMap.1 hx
  obtain ⟨two, -, rfl⟩ := List.mem_map.1 hx2
  rfl

lemma nodup_assignments (people : List (Person α)) (hnd : (names people).Nodup) :
    (assignments people).Nodup := by
  rw [assignments]
  refine List.nodup_flatMap.2 ⟨fun ht hht => ?_, ?_⟩
  · refine List.nodup_flatMap.2 ⟨fun one hone => ?_, ?_⟩
    · refine List.Nodup.map (fun t1 t2 h => congrArg Assign.two h) ?_
      exact List.nodup_sublists.2 (hnd.filter _)
    · have hndp : (powerset (names people)).Nodup := List.nodup_sublists.2 hnd
      refine hndp.imp ?_
      intro a b hab x hxa hxb
      obtain ⟨t1, -, rfl⟩ := List.mem_map.1 hxa
      obtain ⟨t2, -, heq⟩ := List.mem_map.1 hxb
      exact hab (congrArg Assign.one heq.symm)
  · have hndf : ((powerset (names people)).filter
        fun ht => !failsEvidence people ht).Nodup :=
      (List.nodup_sublists.2 hnd).filter _
    refine hndf.imp ?_
    intro a b hab x hxa hxb
    exact hab ((mem_inner_ht hxa).symm.trans (mem_inner_ht hxb))

/-- C5: with distinct names, the enumeration underlying `main` lists every
internally-consistent joint assignment exactly once (the list of visited
assignments has no duplicates, and an assignment is visited iff its one-gene
and trait sets range over all subsets of the population, the trait set
passing the evidence filter and the two-gene set ranging over subsets of the
persons left out of the one-gene set); consequently the two gene sets are
disjoint by construction, and no gene-count filtering is applied. -/
theorem c5_enumeration_exactly_once (people : List (Person α))
    (hnd : (names people).Nodup) :
    (assignments people).Nodup ∧
    (∀ a : Assign α, a ∈ assignments people ↔
      (List.Sublist a.one (names people) ∧
       List.Sublist a.two ((names people).filter fun x => decide (x ∉ a.one)) ∧
       List.Sublist a.ht (names people) ∧
       failsEvidence people a.ht = false)) ∧
    (∀ a ∈ assignments people, ∀ x ∈ a.two, x ∉ a.one) := by
  refine ⟨nodup_assignments people hnd, fun a => ?_, fun a ha x hx => ?_⟩
  · rw [mem_assignments_iff]
    simp only [powerset, List.mem_sublists]
    tauto
  · have h := ((mem_assignments_iff people a).1 ha).2.2.2
    simp only [powerset, List.mem_sublists] at h
    have hx2 := h.subset hx
    have := List.of_mem_filter hx2
    simpa using this

/-- C5 witness: a one-person population; the assignment list is
duplicate-free, membership of a concrete assignment matches the
characterization, and a concrete visited two-gene set avoids the one-gene
set. -/
theorem c5_enumeration_exactly_once_witness :
    (names [(⟨0, none, none, none⟩ : Person ℕ)]).Nodup ∧
    (assignments [(⟨0, none, none, none⟩ : Person ℕ)]).Nodup ∧
    ((⟨[], [0], []⟩ : Assign ℕ) ∈ assignments [(⟨0, none, none, none⟩ : Person ℕ)] ↔
      (List.Sublist ([] : List ℕ) (names [(⟨0, none, none, none⟩ : Person ℕ)]) ∧
       List.Sublist [0] ((names [(⟨0, none, none, none⟩ : Person ℕ)]).filter
         fun x => decide (x ∉ ([] : List ℕ))) ∧
       List.Sublist ([] : List ℕ) (names [(⟨0, none, none, none⟩ : Person ℕ)]) ∧
       failsEvidence [(⟨0, none, none, none⟩ : Person ℕ)] [] = false)) ∧
    (0 : ℕ) ∉ ([] : List ℕ) := by
  have hnd : (names [(⟨0, none, none, none⟩ : Person ℕ)]).Nodup := by decide
  have h := c5_enumeration_exactly_once [(⟨0, none, none, none⟩ : Person ℕ)] hnd
  exact ⟨hnd, h.1, h.2.1 ⟨[], [0], []⟩,
    h.2.2 ⟨[], [0], []⟩ (by decide) 0 (by decide)⟩

/-! ### C7: the three-founder end-to-end scenario

Persons: 0 = Harry (no parents, trait unknown), 1 = James (no parents,
trait observed true), 2 = Lily (no parents, trait observed false). -/

set_option maxHeartbeats 4000000 in
/-- C7 counterexample: the claim's arithmetic is wrong.  The gene-prior-
weighted trait CPT value `0.96*0.01 + 0.03*0.56 + 0.01*0.65` is 0.0329, not
0.0362, and the pipeline indeed gives Harry's trait-true probability 0.0329,
which differs from the claimed 0.0362. -/
theorem c7_counterexample :
    PROBS_gene 0 * PROBS_trait 0 true + PROBS_gene 1 * PROBS_trait 1 true +
      PROBS_gene 2 * PROBS_trait 2 true = 329/10000 ∧
    ((329 : ℚ)/10000 = 362/10000 → False) ∧
    ((0 : ℕ), (⟨96/100, 3/100, 1/100, 329/10000, 9671/10000⟩ : Dists)) ∈
      runInference [(⟨0, none, none, none⟩ : Person ℕ),
        ⟨1, none, none, some true⟩, ⟨2, none, none, some false⟩] := by
  refine ⟨by norm_num [PROBS_gene, PROBS_trait, PROBS_traitLookup], by norm_num, ?_⟩
  norm_num [runInference, applyUpdates, assignments, powerset, names,
    failsEvidence, joint_probability, personFactor, geneCount, optGeneCount,
    childGeneProb, PROBS_gene, PROBS_trait, PROBS_traitLookup, PROBS_mutation,
    parent_prob, update, updateEntry, addGene, addTrait, initTable,
    normalize, normalizeDists, geneSum, traitSum, List.sublists_cons]

set_option maxHeartbeats 4000000 in
/-- C7 amended: in the Harry/James/Lily scenario, James's normalized trait
distribution is {true: 1, false: 0}, Lily's is {true: 0, false: 1}, and
Harry's sums to 1 with trait-true probability equal to the gene-prior-
weighted trait CPT value `0.96*0.01 + 0.03*0.56 + 0.01*0.65 = 0.0329` (the
value the claim miscomputes as 0.0362), already normalized since it is the
only constraint on Harry. -/
theorem c7_end_to_end :
    runInference [(⟨0, none, none, none⟩ : Person ℕ),
        ⟨1, none, none, some true⟩, ⟨2, none, none, some false⟩] =
      [(0, ⟨96/100, 3/100, 1/100, 329/10000, 9671/10000⟩),
       (1, ⟨96/329, 168/329, 65/329, 1, 0⟩),
       (2, ⟨9504/9671, 132/9671, 35/9671, 0, 1⟩)] ∧
    (329 : ℚ)/10000 + 9671/10000 = 1 ∧
    PROBS_gene 0 * PROBS_trait 0 true + PROBS_gene 1 * PROBS_trait 1 true +
      PROBS_gene 2 * PROBS_trait 2 true = 329/10000 := by
  refine ⟨?_, by norm_num, by norm_num [PROBS_gene, PROBS_trait, PROBS_traitLookup]⟩
  norm_num [runInference, applyUpdates, assignments, powerset, names,
    failsEvidence, joint_probability, personFactor, geneCount, optGeneCount,
    childGeneProb, PROBS_gene, PROBS_trait, PROBS_traitLookup, PROBS_mutation,
    parent_prob, update, updateEntry, addGene, addTrait, initTable,
    normalize, normalizeDists, geneSum, traitSum, List.sublists_cons]

end Heredity
